import Mathlib

/-!
Verification of the RimSort load-order core: a shallow embedding of the
sort pipeline (`app/sort/topo_sort.py`, `_do_sort` in
`app/views/main_content_panel.py`) and the diagnostics engine
(`recalculate_internal_errors_warnings`, `_has_replacement`,
`toggle_warning` in `app/views/mods_panel.py`), together with theorems
settling the specification claims about them.

Machine integers play no role here; mod handles (uuids) and package ids
are opaque strings, exactly as in the source.
-/

namespace RimSort

open List

/-- Metadata record for one mod, as consumed by the core
(`internal_local_metadata[uuid]` fields used by the embedded code).
`loadFirst` / `loadLast` model the anchor classification the spec
describes for tier assignment (spec section 3, "Tier assignment");
`supportedVersions` is used for version-mismatch checking. -/
structure ModMeta where
  packageid : String
  name : String
  dependencies : List String
  incompatibilities : List String
  loadTheseBefore : List (String × Bool)
  loadTheseAfter : List (String × Bool)
  supportedVersions : List String
  loadFirst : Bool
  loadLast : Bool
deriving DecidableEq

/-- The metadata store: a read-only mapping from mod handle (uuid) to its
metadata record.  The source reaches it through the `MetadataManager`
singleton; following the spec's dependency-injection note it is an
explicit parameter here. -/
def Meta : Type := String → ModMeta

/-- Python string `<`: lexicographic comparison of code points, on the
character lists of the strings. -/
def charsLt : List Char → List Char → Bool
  | [], [] => false
  | [], _ :: _ => true
  | _ :: _, [] => false
  | a :: as, b :: bs =>
    if a.toNat < b.toNat then true
    else if b.toNat < a.toNat then false
    else charsLt as bs

/-- Python string `<` on `String`. -/
def strLt (s t : String) : Bool := charsLt s.data t.data

/-- Python string `<=` (the sort order of `sorted` on strings). -/
def strLe (s t : String) : Bool := !(strLt t s)

theorem charsLt_cons_iff (a b : Char) (as bs : List Char) :
    charsLt (a :: as) (b :: bs) = true ↔
      a.toNat < b.toNat ∨ (a.toNat = b.toNat ∧ charsLt as bs = true) := by
  simp only [charsLt]
  split_ifs with h1 h2
  · simp [h1]
  · constructor
    · intro h
      cases h
    · rintro (h | ⟨h, _⟩) <;> omega
  · have hab : a.toNat = b.toNat := by omega
    simp [hab]

theorem charsLt_asymm : ∀ as bs, charsLt as bs = true → charsLt bs as = false
  | [], [] => by simp [charsLt]
  | [], _ :: _ => by simp [charsLt]
  | _ :: _, [] => by simp [charsLt]
  | a :: as, b :: bs => by
    intro h
    rw [charsLt_cons_iff] at h
    rcases h with h | ⟨heq, hrec⟩
    · rw [Bool.eq_false_iff]
      intro hc
      rw [charsLt_cons_iff] at hc
      rcases hc with hc | ⟨hc, _⟩ <;> omega
    · rw [Bool.eq_false_iff]
      intro hc
      rw [charsLt_cons_iff] at hc
      rcases hc with hc | ⟨_, hc⟩
      · omega
      · have := charsLt_asymm as bs hrec
        rw [hc] at this
        cases this

theorem charsLt_trans : ∀ as bs cs, charsLt as bs = true → charsLt bs cs = true →
    charsLt as cs = true
  | _, [], [] => by simp [charsLt]
  | _, _ :: _, [] => by intro h1 h2; simp [charsLt] at h2
  | [], [], _ :: _ => by simp [charsLt]
  | [], _ :: _, _ :: _ => by simp [charsLt]
  | _ :: _, [], _ :: _ => by simp [charsLt]
  | a :: as, b :: bs, c :: cs => by
    intro h1 h2
    rw [charsLt_cons_iff] at h1 h2 ⊢
    rcases h1 with h1 | ⟨h1e, h1r⟩ <;> rcases h2 with h2 | ⟨h2e, h2r⟩
    · left; omega
    · left; omega
    · left; omega
    · right
      exact ⟨by omega, charsLt_trans as bs cs h1r h2r⟩

theorem charsLt_conn : ∀ as bs, charsLt as bs = false → charsLt bs as = false → as = bs
  | [], [] => by intro _ _; rfl
  | [], _ :: _ => by simp [charsLt]
  | _ :: _, [] => by simp [charsLt]
  | a :: as, b :: bs => by
    intro h1 h2
    rw [Bool.eq_false_iff] at h1 h2
    have h1 := fun h => h1 ((charsLt_cons_iff a b as bs).mpr h)
    have h2 := fun h => h2 ((charsLt_cons_iff b a bs as).mpr h)
    have hab : a.toNat = b.toNat := by
      by_contra hne
      rcases Nat.lt_or_ge a.toNat b.toNat with h | h
      · exact h1 (Or.inl h)
      · exact h2 (Or.inl (by omega))
    have hchar : a = b := Char.ext (UInt32.toNat.inj hab)
    have htail : as = bs := by
      apply charsLt_conn as bs
      · rw [Bool.eq_false_iff]
        intro hc
        exact h1 (Or.inr ⟨hab, hc⟩)
      · rw [Bool.eq_false_iff]
        intro hc
        exact h2 (Or.inr ⟨hab.symm, hc⟩)
    rw [hchar, htail]

theorem strLe_total (s t : String) : strLe s t = true ∨ strLe t s = true := by
  cases h : charsLt t.data s.data
  · left
    simp [strLe, strLt, h]
  · right
    simp [strLe, strLt, charsLt_asymm _ _ h]

theorem strLe_trans {s t u : String} (h1 : strLe s t = true) (h2 : strLe t u = true) :
    strLe s u = true := by
  simp only [strLe, strLt, Bool.not_eq_true'] at h1 h2 ⊢
  cases hus : charsLt u.data s.data
  · rfl
  · exfalso
    cases hut : charsLt u.data t.data
    · cases htu : charsLt t.data u.data
      · have := charsLt_conn _ _ hut htu
        rw [this] at hus
        rw [hus] at h1
        cases h1
      · have := charsLt_trans _ _ _ htu hus
        rw [this] at h1
        cases h1
    · rw [hut] at h2
      cases h2

/-- The name order used by the sort: Python `sorted(key=name)` compares
display names with string `<=`. -/
def nameLe (md : Meta) (u v : String) : Prop := strLe (md u).name (md v).name = true

instance (md : Meta) : DecidableRel (nameLe md) := fun u v => by
  unfold nameLe
  infer_instance

instance (md : Meta) : IsTotal String (nameLe md) :=
  ⟨fun u v => strLe_total (md u).name (md v).name⟩

instance (md : Meta) : IsTrans String (nameLe md) :=
  ⟨fun _ _ _ h1 h2 => strLe_trans h1 h2⟩

/-- A dependency graph: package id to the package ids it depends on
(Python `dict[str, set[str]]`, here an association list). -/
def Graph : Type := List (String × List String)

/-- The dependency entry stored for a node (empty when absent,
matching Python set semantics for missing keys). -/
def depsOf (g : Graph) (n : String) : List String :=
  (g.lookup n).getD []

/-- All nodes of the graph: keys together with every package id that
appears in some dependency set (the `toposort` library adds such
"extra items in deps" as nodes with no dependencies). -/
def graphNodes (g : Graph) : List String :=
  (g.map Prod.fst ++ (g.map Prod.snd).flatten).dedup

/-- One Kahn round: the nodes of `remaining` all of whose dependencies
(self-dependencies discarded, as the `toposort` library does) have
already been extracted. -/
def kahnReady (g : Graph) (remaining : List String) (n : String) : Bool :=
  (depsOf g n).all (fun d => d == n || !(remaining.contains d))

/-- The error raised by the `toposort` library when extraction stalls. -/
def CircularDependencyError : Type := Unit

instance : DecidableEq CircularDependencyError := fun _ _ => .isTrue rfl

instance {ε α : Type} [DecidableEq ε] [DecidableEq α] : DecidableEq (Except ε α) := fun x y =>
  match x, y with
  | .error a, .error b => if h : a = b then .isTrue (by rw [h]) else .isFalse (by
      intro hc
      exact h (by injection hc))
  | .ok a, .ok b => if h : a = b then .isTrue (by rw [h]) else .isFalse (by
      intro hc
      exact h (by injection hc))
  | .error _, .ok _ => .isFalse (by intro hc; cases hc)
  | .ok _, .error _ => .isFalse (by intro hc; cases hc)

/-- Fuelled Kahn extraction over the remaining nodes, one topological
level per round; errors when no node is extractable but nodes remain. -/
def kahnAux (g : Graph) : Nat → List String → Except CircularDependencyError (List (List String))
  | _, [] => .ok []
  | 0, _ :: _ => .error ()
  | fuel + 1, remaining@(_ :: _) =>
    if (remaining.filter (kahnReady g remaining)).isEmpty then .error ()
    else
      match kahnAux g fuel (remaining.filter
          (fun m => !((remaining.filter (kahnReady g remaining)).contains m))) with
      | .error e => .error e
      | .ok rest => .ok (remaining.filter (kahnReady g remaining) :: rest)

/-- `list(toposort(dependency_graph))`: the topological levels of the
graph, embedding the documented algorithm of the external `toposort`
library (Kahn-style level extraction, spec section 4.2). -/
def toposortLevels (g : Graph) : Except CircularDependencyError (List (List String)) :=
  kahnAux g (graphNodes g).length (graphNodes g)

/-- Python `dict` built from an association sequence: later entries
overwrite earlier ones, so lookup returns the value of the last
matching entry. -/
def dictLookup : List (String × String) → String → Option String
  | [], _ => none
  | (k, v) :: rest, p =>
    match dictLookup rest p with
    | some r => some r
    | none => if k = p then some v else none

/-- `active_mods_packageid_to_uuid` from `do_topo_sort`: the package id
of each active mod, paired with its uuid. -/
def pid2uuid (md : Meta) (active : List String) : List (String × String) :=
  active.map (fun u => ((md u).packageid, u))

/-- The per-level body of `do_topo_sort`: keep the package ids of the
level that belong to active mods, take their uuids, and sort them by
display name (`sorted(..., key=lambda uuid: metadata[uuid]["name"])`). -/
def levelBlock (md : Meta) (active : List String) (level : List String) : List String :=
  List.insertionSort (nameLe md)
    (level.filterMap (fun p => dictLookup (pid2uuid md active) p))

/-- Directed edge test of the graph (`nx.DiGraph(dependency_graph)` has
an edge from a key to each member of its dependency set). -/
def hasEdge (g : Graph) (a b : String) : Bool :=
  (depsOf g a).contains b

/-- Consecutive pairs of the list are all edges. -/
def isChain (g : Graph) : List String → Bool
  | a :: b :: rest => hasEdge g a b && isChain g (b :: rest)
  | _ => true

/-- The nonempty list of distinct nodes is a simple cycle: consecutive
edges plus the closing edge from the last node back to the first. -/
def isCycle (g : Graph) : List String → Bool
  | [] => false
  | c@(x :: _) => isChain g c && hasEdge g (c.getLastD x) x

/-- Canonical-rotation marker: the cycle is listed starting from its
least node, so each cyclic sequence is enumerated exactly once. -/
def minFirst : List String → Bool
  | [] => false
  | x :: xs => xs.all (fun y => strLe x y)

/-- All permutations of the list, by repeated selection of a head
(fuelled to keep the recursion structural). -/
def permsOf : Nat → List String → List (List String)
  | _, [] => [[]]
  | 0, _ :: _ => []
  | fuel + 1, l => l.flatMap (fun x => (permsOf fuel (l.erase x)).map (fun p => x :: p))

/-- `nx.simple_cycles`: every simple cycle of the directed graph, each
as its list of nodes without repeating the starting node (embedding the
documented output of the external `networkx` library, one canonical
rotation per cycle). -/
def simple_cycles (g : Graph) : List (List String) :=
  ((graphNodes g).sublists.flatMap (fun s => permsOf s.length s)).filter
    (fun c => isCycle g c && minFirst c)

/-- `find_circular_dependencies`: the arrow-joined cycle strings the
reporter logs and shows in the warning dialog
(`" -> ".join(cycle)` for each cycle). -/
def find_circular_dependencies (g : Graph) : List String :=
  (simple_cycles g).map (fun c => String.intercalate " -> " c)

/-- `do_topo_sort` from `app/sort/topo_sort.py`: topological levels of
the dependency graph, each level restricted to active mods and sorted
by name, concatenated.  On `CircularDependencyError` the source calls
`find_circular_dependencies` on the graph and re-raises; the error
branch carries that reporter output. -/
def do_topo_sort (md : Meta) (g : Graph) (active : List String) :
    Except (List String) (List String) :=
  match toposortLevels g with
  | .error _ => .error (find_circular_dependencies g)
  | .ok levels => .ok ((levels.map (levelBlock md active)).flatten)

/-- The package ids of the active mods, in list order (`active_mod_ids`
collected at the start of `_do_sort`). -/
def activeIdsOf (md : Meta) (active : List String) : List String :=
  active.map (fun u => (md u).packageid)

/-- Modelled from the spec: `gen_deps_graph` lives in
`app/sort/dependencies.py`, which is not in the source tree (only its
caller `_do_sort` is).  Spec section 4.1: for each active mod, intersect
its declared dependencies with the set of active package ids; emit only
edges within the active set. -/
def gen_deps_graph (md : Meta) (active activeIds : List String) : Graph :=
  active.map (fun u =>
    ((md u).packageid, (md u).dependencies.filter (fun d => activeIds.contains d)))

/-- Modelled from the spec: `gen_rev_deps_graph` is in the missing
`app/sort/dependencies.py`.  Spec section 4.1: invert the forward
graph — for active mods A depending on active B, add edge B to A. -/
def gen_rev_deps_graph (md : Meta) (active _activeIds : List String) : Graph :=
  active.map (fun u =>
    ((md u).packageid,
      (active.filter (fun v =>
        (md v).dependencies.contains (md u).packageid)).map (fun v => (md v).packageid)))

/-- The induced subgraph on a set of package ids: keep the keys in the
set, and restrict every dependency set to members of the set
(spec section 4.1, tier graphs as induced sub-graphs). -/
def inducedSubgraph (g : Graph) (s : List String) : Graph :=
  (g.filter (fun kv => s.contains kv.1)).map
    (fun kv => (kv.1, kv.2.filter (fun d => s.contains d)))

/-- Modelled from the spec: the top-tier package ids.  Spec sections 3
and 4.1: mods marked (via metadata classification) as anchors that must
load first.  The anchor mark is the `loadFirst` metadata flag. -/
def tier_one_ids (md : Meta) (active : List String) : List String :=
  (active.filter (fun u => (md u).loadFirst)).map (fun u => (md u).packageid)

/-- Modelled from the spec: the bottom-tier package ids — mods marked to
load last.  A mod qualifying for both top and bottom is resolved by
giving Top priority (spec section 4.1 edge case, section 9 Top-wins
recommendation). -/
def tier_three_ids (md : Meta) (active : List String) : List String :=
  (active.filter (fun u => (md u).loadLast && !(md u).loadFirst)).map
    (fun u => (md u).packageid)

/-- Modelled from the spec: `gen_tier_one_deps_graph` (missing
`app/sort/dependencies.py`) — the top tier set with the induced
sub-graph of the dependency graph restricted to it. -/
def gen_tier_one_deps_graph (md : Meta) (active : List String) (g : Graph) :
    Graph × List String :=
  (inducedSubgraph g (tier_one_ids md active), tier_one_ids md active)

/-- Modelled from the spec: `gen_tier_three_deps_graph` (missing
`app/sort/dependencies.py`) — the bottom tier set with the induced
sub-graph restricted to it.  The reverse graph parameter mirrors the
source call signature. -/
def gen_tier_three_deps_graph (md : Meta) (active : List String) (g _rg : Graph) :
    Graph × List String :=
  (inducedSubgraph g (tier_three_ids md active), tier_three_ids md active)

/-- Modelled from the spec: `gen_tier_two_deps_graph` (missing
`app/sort/dependencies.py`) — the remaining active mods, with the
dependency graph induced by excluding top and bottom members
(spec section 4.1, Middle). -/
def gen_tier_two_deps_graph (md : Meta) (active activeIds t1 t3 : List String) : Graph :=
  inducedSubgraph (gen_deps_graph md active activeIds)
    (activeIds.filter (fun p => !(t1.contains p) && !(t3.contains p)))

/-- Modelled from the spec: `do_alphabetical_sort` lives in
`app/sort/alphabetical_sort.py`, which is not in the source tree.  Spec
section 4.2: order the members of the tier by case-insensitive display
name ascending, ignoring graph edges. -/
def do_alphabetical_sort (md : Meta) (g : Graph) (active : List String) : List String :=
  List.insertionSort (fun u v => strLe (md u).name.toLower (md v).name.toLower = true)
    (active.filter (fun u => (graphNodes g).contains (md u).packageid))

/-- Key deduplication of a Python dict built by insertion
(`combined_mods` in `_do_sort`): first occurrence of each key wins the
position. -/
def dedupKeysAux : List String → List String → List String
  | _, [] => []
  | seen, x :: xs =>
    if seen.contains x then dedupKeysAux seen xs
    else x :: dedupKeysAux (x :: seen) xs

/-- `new_order = list(combined_mods.keys())` from `_do_sort`. -/
def dedupKeys (l : List String) : List String := dedupKeysAux [] l

/-- The sorting algorithm selected in the settings. -/
inductive SortAlg where
  | Alphabetical
  | Topological
deriving DecidableEq

/-- The three tier dependency graphs built at the start of `_do_sort`,
in the order tier one, tier two, tier three. -/
def tierGraphs (md : Meta) (active : List String) : Graph × Graph × Graph :=
  let activeIds := activeIdsOf md active
  let g := gen_deps_graph md active activeIds
  let rg := gen_rev_deps_graph md active activeIds
  let p1 := gen_tier_one_deps_graph md active g
  let p3 := gen_tier_three_deps_graph md active g rg
  let g2 := gen_tier_two_deps_graph md active activeIds p1.2 p3.2
  (p1.1, g2, p3.1)

/-- `_do_sort` from `app/views/main_content_panel.py`: build the tier
graphs, sort each tier with the configured algorithm (the topological
branch sorts tier one, then tier three, then tier two, and aborts on the
first `CircularDependencyError`), then concatenate tier one, tier two,
tier three and deduplicate through the `combined_mods` dict.  The error
branch carries the cycle-reporter output produced inside
`do_topo_sort` before the exception propagates. -/
def _do_sort (md : Meta) (alg : SortAlg) (active : List String) :
    Except (List String) (List String) :=
  let gs := tierGraphs md active
  match alg with
  | .Alphabetical =>
    .ok (dedupKeys (do_alphabetical_sort md gs.1 active ++
      do_alphabetical_sort md gs.2.1 active ++ do_alphabetical_sort md gs.2.2 active))
  | .Topological =>
    match do_topo_sort md gs.1 active with
    | .error r => .error r
    | .ok o1 =>
      match do_topo_sort md gs.2.2 active with
      | .error r => .error r
      | .ok o3 =>
        match do_topo_sort md gs.2.1 active with
        | .error r => .error r
        | .ok o2 => .ok (dedupKeys (o1 ++ o2 ++ o3))

/-- The active order displayed after `_do_sort` runs: the new order on
success, the previous order untouched when a `CircularDependencyError`
made `_do_sort` return early. -/
def displayedOrderAfterSort (md : Meta) (alg : SortAlg) (active : List String) :
    List String :=
  match _do_sort md alg active with
  | .error _ => active
  | .ok o => o

/-- Per-mod diagnostic record (`package_id_to_errors[uuid]` in
`recalculate_internal_errors_warnings`): the four rule sets are
initialised to empty sets for an "Active" list and to `None`
otherwise, here `Option` with `none` for `None`. -/
structure ModErrors where
  missing_dependencies : Option (List String)
  conflicting_incompatibilities : Option (List String)
  load_before_violations : Option (List String)
  load_after_violations : Option (List String)
  version_mismatch : Bool
deriving DecidableEq

/-- Python truthiness of a rule-set slot: `None` and the empty set are
falsy, a nonempty set is truthy. -/
def hasAny : Option (List String) → Bool
  | some l => !l.isEmpty
  | none => false

/-- Modelled from the spec: `MetadataManager.is_version_mismatch` lives
in `app/utils/metadata.py`, which is not in the source tree.  Spec
section 4.4: mismatch exactly when the mod's supported versions are
non-empty and the current game version is not among them. -/
def is_version_mismatch (md : Meta) (gameVersion : String) (u : String) : Bool :=
  !(md u).supportedVersions.isEmpty && !(md u).supportedVersions.contains gameVersion

/-- `_has_replacement` from `app/views/mods_panel.py`: true when some
known replacement for the dependency is in the active package-id set.
The replacement table `KNOWN_MOD_REPLACEMENTS` is defined in
`app/utils/constants.py`, which is not in the source tree; the spec
describes it as a static table from a retired package id to the set of
packages superseding it, so it is an explicit parameter `repl` here. -/
def _has_replacement (repl : List (String × List String)) ( _package_id dep : String)
    (package_ids_set : List String) : Bool :=
  ((repl.lookup dep).getD []).any (fun r => package_ids_set.contains r)

/-- The body of the per-mod loop of
`recalculate_internal_errors_warnings`, computing one mod's
`ModErrors`.  The rule checks run only for an "Active" list when the
mod has a truthy package id that is not in the ignore list; otherwise
the initialisation survives (empty sets for "Active", `None`
otherwise).  Version mismatch is computed for every mod. -/
def modErrorsFor (md : Meta) (repl : List (String × List String))
    (gameVersion listType : String) (uuids ignore : List String) (u : String) : ModErrors :=
  let pids := activeIdsOf md uuids
  let p2u := pid2uuid md uuids
  let idx := uuids.indexOf u
  let vm := is_version_mismatch md gameVersion u
  if listType = "Active" ∧ (md u).packageid ≠ "" ∧ ¬ (md u).packageid ∈ ignore then
    { missing_dependencies := some ((md u).dependencies.filter (fun dep =>
        !(pids.contains dep) && !(_has_replacement repl (md u).packageid dep pids)))
      conflicting_incompatibilities := some ((md u).incompatibilities.filter
        (fun inc => pids.contains inc))
      load_before_violations := some (((md u).loadTheseBefore.filter (fun e =>
        e.2 && (match dictLookup p2u e.1 with
          | some tu => decide (idx ≤ uuids.indexOf tu)
          | none => false))).map Prod.fst)
      load_after_violations := some (((md u).loadTheseAfter.filter (fun e =>
        e.2 && (match dictLookup p2u e.1 with
          | some tu => decide (idx ≥ uuids.indexOf tu)
          | none => false))).map Prod.fst)
      version_mismatch := vm }
  else
    { missing_dependencies := if listType = "Active" then some [] else none
      conflicting_incompatibilities := if listType = "Active" then some [] else none
      load_before_violations := if listType = "Active" then some [] else none
      load_after_violations := if listType = "Active" then some [] else none
      version_mismatch := vm }

/-- Whether the mod joins the error summary: any missing dependencies
or conflicting incompatibilities, on an "Active" list. -/
def countsAsError (listType : String) (e : ModErrors) : Bool :=
  listType == "Active" &&
    (hasAny e.missing_dependencies || hasAny e.conflicting_incompatibilities)

/-- Whether the mod joins the warning summary: any load-order violation
or a version mismatch, on an "Active" list, for a mod whose package id
is not ignored. -/
def countsAsWarning (md : Meta) (listType : String) (ignore : List String)
    (u : String) (e : ModErrors) : Bool :=
  listType == "Active" && !(ignore.contains (md u).packageid) &&
    (hasAny e.load_before_violations || hasAny e.load_after_violations ||
      e.version_mismatch)

/-- The loop of `recalculate_internal_errors_warnings` over the mods of
the list: per-mod diagnostic records together with the running
`num_errors` and `num_warnings` totals. -/
def recalcAux (md : Meta) (repl : List (String × List String))
    (gameVersion listType : String) (uuids ignore : List String) :
    List String → List (String × ModErrors) × Nat × Nat
  | [] => ([], 0, 0)
  | u :: rest =>
    let e := modErrorsFor md repl gameVersion listType uuids ignore u
    let r := recalcAux md repl gameVersion listType uuids ignore rest
    ((u, e) :: r.1,
      (if countsAsError listType e then 1 else 0) + r.2.1,
      (if countsAsWarning md listType ignore u e then 1 else 0) + r.2.2)

/-- `recalculate_internal_errors_warnings` from
`app/views/mods_panel.py`, restricted to its observable data: the
diagnostic record attached to each list item and the returned
`num_errors` / `num_warnings` totals (the two summary strings are
display text assembled from the same records). -/
def recalculate_internal_errors_warnings (md : Meta)
    (repl : List (String × List String)) (gameVersion listType : String)
    (uuids ignore : List String) : List (String × ModErrors) × Nat × Nat :=
  recalcAux md repl gameVersion listType uuids ignore uuids

/-- `toggle_warning` from `app/views/mods_panel.py`: append the package
id to the ignore list when absent, otherwise remove its first
occurrence (`list.remove`). -/
def toggle_warning (ignore : List String) (packageid : String) : List String :=
  if ignore.contains packageid then ignore.erase packageid
  else ignore ++ [packageid]

/-- Claim-side definition, following the spec's words rather than the
source: ASCII lower-casing of a character, for the "case-insensitive
display name" comparison the spec claims for tie-breaking. -/
def lowerChar (c : Char) : Char :=
  if 65 ≤ c.toNat ∧ c.toNat ≤ 90 then Char.ofNat (c.toNat + 32) else c

/-- Claim-side definition: the lower-cased character list of a string. -/
def lowerData (s : String) : List Char := s.data.map lowerChar

/-- Claim-side definition: strict case-insensitive string order, the
order the spec claims levels are sorted by. -/
def ciLt (s t : String) : Bool := charsLt (lowerData s) (lowerData t)

/-! ### Concrete metadata stores used by witnesses and counterexamples -/

/-- Two independent mods: `u1` is `p1` named "Zeta", every other handle
resolves to `p2` named "alpha" (mixed case on purpose). -/
def mdA : Meta := fun u =>
  if u = "u1" then
    { packageid := "p1", name := "Zeta", dependencies := [], incompatibilities := [],
      loadTheseBefore := [], loadTheseAfter := [], supportedVersions := [],
      loadFirst := false, loadLast := false }
  else
    { packageid := "p2", name := "alpha", dependencies := [], incompatibilities := [],
      loadTheseBefore := [], loadTheseAfter := [], supportedVersions := [],
      loadFirst := false, loadLast := false }

/-- Two mutually dependent mods: `u1` is `A` depending on `B`, every
other handle resolves to `B` depending on `A`. -/
def mdB : Meta := fun u =>
  if u = "u1" then
    { packageid := "A", name := "A", dependencies := ["B"], incompatibilities := [],
      loadTheseBefore := [], loadTheseAfter := [], supportedVersions := [],
      loadFirst := false, loadLast := false }
  else
    { packageid := "B", name := "B", dependencies := ["A"], incompatibilities := [],
      loadTheseBefore := [], loadTheseAfter := [], supportedVersions := [],
      loadFirst := false, loadLast := false }

/-- Diagnostics fixture: `u1` is `M1`, which depends on `core.missing`
and declares a strict load-before rule on `M2`; every other handle
resolves to `M2` with no rules. -/
def mdD : Meta := fun u =>
  if u = "u1" then
    { packageid := "M1", name := "M1", dependencies := ["core.missing"],
      incompatibilities := [], loadTheseBefore := [("M2", true)], loadTheseAfter := [],
      supportedVersions := [], loadFirst := false, loadLast := false }
  else
    { packageid := "M2", name := "M2", dependencies := [], incompatibilities := [],
      loadTheseBefore := [], loadTheseAfter := [], supportedVersions := [],
      loadFirst := false, loadLast := false }

/-! ### General lemmas about the embedded operations -/

theorem dictLookup_mem {m : List (String × String)} {p u : String}
    (h : dictLookup m p = some u) : (p, u) ∈ m := by
  induction m with
  | nil => cases h
  | cons kv rest ih =>
    rw [dictLookup] at h
    rcases hr : dictLookup rest p with _ | r
    · rw [hr] at h
      simp only at h
      split at h
      · rename_i heq
        cases h
        subst heq
        simp
      · cases h
    · rw [hr] at h
      simp only at h
      cases h
      exact List.mem_cons_of_mem _ (ih hr)

theorem dictLookup_eq_none {m : List (String × String)} {p : String}
    (h : ∀ kv ∈ m, kv.1 ≠ p) : dictLookup m p = none := by
  induction m with
  | nil => rfl
  | cons kv rest ih =>
    rw [dictLookup, ih (fun x hx => h x (List.mem_cons_of_mem _ hx))]
    simp only
    rw [if_neg (h kv (List.mem_cons_self _ _))]

theorem pid2uuid_mem {md : Meta} {active : List String} {p u : String} :
    (p, u) ∈ pid2uuid md active ↔ u ∈ active ∧ (md u).packageid = p := by
  simp only [pid2uuid, List.mem_map, Prod.mk.injEq]
  constructor
  · rintro ⟨v, hv, hp, rfl⟩
    exact ⟨hv, hp⟩
  · rintro ⟨hu, hp⟩
    exact ⟨u, hu, hp, rfl⟩

theorem mem_activeIdsOf {md : Meta} {active : List String} {u : String} (hu : u ∈ active) :
    (md u).packageid ∈ activeIdsOf md active :=
  List.mem_map_of_mem _ hu

theorem dictLookup_pid2uuid_self {md : Meta} {active : List String}
    (hnd : (activeIdsOf md active).Nodup) {u : String} (hu : u ∈ active) :
    dictLookup (pid2uuid md active) ((md u).packageid) = some u := by
  induction active with
  | nil => cases hu
  | cons a rest ih =>
    have hnd' : (activeIdsOf md rest).Nodup := (List.nodup_cons.mp hnd).2
    rcases List.mem_cons.mp hu with rfl | hmem
    · rw [pid2uuid, List.map_cons, dictLookup]
      have hnone : dictLookup (pid2uuid md rest) ((md u).packageid) = none := by
        apply dictLookup_eq_none
        intro kv hkv
        rcases kv with ⟨k, v⟩
        intro hk
        have := pid2uuid_mem.mp hkv
        have hk2 : (md u).packageid ∈ activeIdsOf md rest := by
          rw [← hk, ← this.2]
          exact mem_activeIdsOf this.1
        exact (List.nodup_cons.mp hnd).1 hk2
      rw [pid2uuid] at hnone
      rw [hnone]
      simp
    · rw [pid2uuid, List.map_cons, dictLookup]
      have := ih hnd' hmem
      rw [pid2uuid] at this
      rw [this]

theorem dictLookup_pid2uuid_unique {md : Meta} {active : List String}
    (hnd : (activeIdsOf md active).Nodup) {u w : String} (hu : u ∈ active)
    (hw : w ∈ active) (hp : (md w).packageid = (md u).packageid) : w = u :=
  List.inj_on_of_nodup_map hnd hw hu hp

theorem dedupKeysAux_eq_self {l : List String} (hnd : l.Nodup) :
    ∀ seen, (∀ x ∈ l, ¬ x ∈ seen) → dedupKeysAux seen l = l := by
  induction l with
  | nil => intro seen _; rfl
  | cons a rest ih =>
    intro seen hseen
    rw [dedupKeysAux]
    rw [if_neg]
    · rw [ih (List.nodup_cons.mp hnd).2 (a :: seen)]
      intro x hx hc
      rcases List.mem_cons.mp hc with rfl | hc2
      · exact (List.nodup_cons.mp hnd).1 hx
      · exact hseen x (List.mem_cons_of_mem _ hx) hc2
    · simp only [List.contains, List.elem_eq_mem, decide_eq_true_eq]
      exact hseen a (List.mem_cons_self _ _)

theorem dedupKeys_eq_self {l : List String} (hnd : l.Nodup) : dedupKeys l = l :=
  dedupKeysAux_eq_self hnd [] (by simp)

theorem flatten_map_perm {α β : Type} {ls : List α} {F G : α → List β}
    (h : ∀ x ∈ ls, F x ~ G x) : (ls.map F).flatten ~ (ls.map G).flatten := by
  induction ls with
  | nil => rfl
  | cons a rest ih =>
    simp only [List.map_cons, List.flatten_cons]
    exact (h a (List.mem_cons_self _ _)).append
      (ih (fun x hx => h x (List.mem_cons_of_mem _ hx)))

/-! ### Permutation facts about the Kahn levelling -/

theorem kahnAux_flatten_perm (g : Graph) :
    ∀ fuel remaining ls, kahnAux g fuel remaining = .ok ls → ls.flatten ~ remaining := by
  intro fuel
  induction fuel with
  | zero =>
    intro remaining ls h
    cases remaining with
    | nil => rw [kahnAux] at h; cases h; rfl
    | cons a rest => cases h
  | succ n ih =>
    intro remaining ls h
    cases remaining with
    | nil => rw [kahnAux] at h; cases h; rfl
    | cons a rest =>
      rw [kahnAux] at h
      split at h
      · cases h
      · rcases hrec : kahnAux g n ((a :: rest).filter
            (fun m => !(((a :: rest).filter (kahnReady g (a :: rest))).contains m))) with _ | ls2
        · rw [hrec] at h; cases h
        · rw [hrec] at h
          cases h
          have hperm := ih _ _ hrec
          have hcongr : (a :: rest).filter
              (fun m => !(((a :: rest).filter (kahnReady g (a :: rest))).contains m)) =
              (a :: rest).filter (fun m => !(kahnReady g (a :: rest) m)) := by
            apply List.filter_congr
            intro x hx
            have hc : (((a :: rest).filter (kahnReady g (a :: rest))).contains x) =
                kahnReady g (a :: rest) x := by
              cases hP : kahnReady g (a :: rest) x
              · simp [List.contains, List.mem_filter, hP]
              · simp [List.contains, List.mem_filter, hx, hP]
            rw [hc]
          rw [hcongr] at hperm
          rw [List.flatten_cons]
          exact (hperm.append_left _).trans
            (List.filter_append_perm (kahnReady g (a :: rest)) (a :: rest))

theorem toposortLevels_flatten_perm {g : Graph} {ls : List (List String)}
    (h : toposortLevels g = .ok ls) : ls.flatten ~ graphNodes g :=
  kahnAux_flatten_perm g _ _ _ h

theorem graphNodes_nodup (g : Graph) : (graphNodes g).Nodup :=
  List.nodup_dedup _

theorem dictLookup_pid2uuid_inj {md : Meta} {active : List String} :
    ∀ p q u, dictLookup (pid2uuid md active) p = some u →
      dictLookup (pid2uuid md active) q = some u → p = q := by
  intro p q u hp hq
  have h1 := pid2uuid_mem.mp (dictLookup_mem hp)
  have h2 := pid2uuid_mem.mp (dictLookup_mem hq)
  rw [← h1.2, ← h2.2]

theorem filterMap_lookup_perm (md : Meta) (active N : List String)
    (hnd : (activeIdsOf md active).Nodup) (hN : N.Nodup) :
    N.filterMap (fun p => dictLookup (pid2uuid md active) p) ~
      active.filter (fun u => N.contains ((md u).packageid)) := by
  have hact : active.Nodup := List.Nodup.of_map _ hnd
  apply (List.perm_ext_iff_of_nodup ?_ ?_).mpr
  · intro u
    simp only [List.mem_filterMap, List.mem_filter]
    constructor
    · rintro ⟨p, hpN, hlook⟩
      have hm := pid2uuid_mem.mp (dictLookup_mem hlook)
      refine ⟨hm.1, ?_⟩
      rw [hm.2]
      simpa [List.contains] using hpN
    · rintro ⟨hu, hcon⟩
      refine ⟨(md u).packageid, by simpa [List.contains] using hcon, ?_⟩
      exact dictLookup_pid2uuid_self hnd hu
  · exact hN.filterMap (fun a b u ha hb =>
      dictLookup_pid2uuid_inj a b u (by simpa using ha) (by simpa using hb))
  · exact hact.filter _

theorem do_topo_sort_perm_filter {md : Meta} {g : Graph} {active out : List String}
    (hnd : (activeIdsOf md active).Nodup) (h : do_topo_sort md g active = .ok out) :
    out ~ active.filter (fun u => (graphNodes g).contains ((md u).packageid)) := by
  unfold do_topo_sort at h
  rcases htl : toposortLevels g with e | levels
  · rw [htl] at h; cases h
  · rw [htl] at h
    cases h
    have h1 : (levels.map (levelBlock md active)).flatten ~
        (levels.map (fun lv => lv.filterMap
          (fun p => dictLookup (pid2uuid md active) p))).flatten := by
      apply flatten_map_perm
      intro lv _
      exact List.perm_insertionSort _ _
    have h2 : (levels.map (fun lv => lv.filterMap
        (fun p => dictLookup (pid2uuid md active) p))).flatten =
        levels.flatten.filterMap (fun p => dictLookup (pid2uuid md active) p) :=
      (List.filterMap_flatten _ _).symm
    have h3 : levels.flatten.filterMap (fun p => dictLookup (pid2uuid md active) p) ~
        (graphNodes g).filterMap (fun p => dictLookup (pid2uuid md active) p) :=
      (toposortLevels_flatten_perm htl).filterMap _
    exact ((h1.trans (h2 ▸ h3)).trans
      (filterMap_lookup_perm md active (graphNodes g) hnd (graphNodes_nodup g)))

/-! ### Tier graphs: node membership and the partition of the active set -/

theorem tierGraphs_fst (md : Meta) (active : List String) :
    (tierGraphs md active).1 =
      inducedSubgraph (gen_deps_graph md active (activeIdsOf md active))
        (tier_one_ids md active) := rfl

theorem tierGraphs_snd_fst (md : Meta) (active : List String) :
    (tierGraphs md active).2.1 =
      inducedSubgraph (gen_deps_graph md active (activeIdsOf md active))
        ((activeIdsOf md active).filter (fun p =>
          !((tier_one_ids md active).contains p) &&
          !((tier_three_ids md active).contains p))) := rfl

theorem tierGraphs_snd_snd (md : Meta) (active : List String) :
    (tierGraphs md active).2.2 =
      inducedSubgraph (gen_deps_graph md active (activeIdsOf md active))
        (tier_three_ids md active) := rfl

theorem mem_graphNodes_induced (md : Meta) (active t : List String) (p : String) :
    p ∈ graphNodes (inducedSubgraph (gen_deps_graph md active (activeIdsOf md active)) t) ↔
      p ∈ activeIdsOf md active ∧ p ∈ t := by
  simp only [graphNodes, inducedSubgraph, gen_deps_graph, List.mem_dedup, List.mem_append,
    List.map_map, List.mem_map, List.mem_filter, List.mem_flatten]
  constructor
  · rintro (⟨kv, ⟨hkv, hcon⟩, rfl⟩ | ⟨l, ⟨kv, ⟨hkv, _⟩, rfl⟩, hp⟩)
    · rcases hkv with ⟨u, hu, rfl⟩
      refine ⟨?_, by simpa [List.contains] using hcon⟩
      exact mem_activeIdsOf hu
    · rcases hkv with ⟨u, hu, rfl⟩
      simp only [Function.comp] at hp
      have := List.mem_filter.mp hp
      refine ⟨?_, by simpa [List.contains] using this.2⟩
      have := List.mem_filter.mp this.1
      simpa [List.contains, activeIdsOf] using this.2
  · rintro ⟨hid, ht⟩
    left
    rcases List.mem_map.mp hid with ⟨u, hu, rfl⟩
    exact ⟨((md u).packageid, (md u).dependencies.filter
        (fun d => (activeIdsOf md active).contains d)),
      ⟨⟨u, hu, rfl⟩, by simpa [List.contains] using ht⟩, rfl⟩

theorem mem_map_filter_pid {md : Meta} {active : List String}
    (hnd : (activeIdsOf md active).Nodup) {u : String} (hu : u ∈ active)
    (f : String → Bool) :
    (md u).packageid ∈ (active.filter f).map (fun v => (md v).packageid) ↔ f u = true := by
  constructor
  · intro h
    rcases List.mem_map.mp h with ⟨v, hv, hpv⟩
    have hvf := List.mem_filter.mp hv
    have := dictLookup_pid2uuid_unique hnd hu hvf.1 hpv
    rw [← this]
    exact hvf.2
  · intro hf
    exact List.mem_map_of_mem _ (List.mem_filter.mpr ⟨hu, hf⟩)

theorem tier_one_contains_iff {md : Meta} {active : List String}
    (hnd : (activeIdsOf md active).Nodup) {u : String} (hu : u ∈ active) :
    ((graphNodes (tierGraphs md active).1).contains ((md u).packageid)) =
      (md u).loadFirst := by
  rw [tierGraphs_fst]
  cases hlf : (md u).loadFirst
  · simp only [List.contains, List.elem_eq_mem, decide_eq_false_iff_not]
    intro hc
    have := (mem_graphNodes_induced md active (tier_one_ids md active) _).mp hc
    have := (mem_map_filter_pid hnd hu _).mp this.2
    rw [hlf] at this
    cases this
  · simp only [List.contains, List.elem_eq_mem, decide_eq_true_eq]
    apply (mem_graphNodes_induced md active (tier_one_ids md active) _).mpr
    exact ⟨mem_activeIdsOf hu, (mem_map_filter_pid hnd hu _).mpr hlf⟩

theorem tier_three_contains_iff {md : Meta} {active : List String}
    (hnd : (activeIdsOf md active).Nodup) {u : String} (hu : u ∈ active) :
    ((graphNodes (tierGraphs md active).2.2).contains ((md u).packageid)) =
      ((md u).loadLast && !(md u).loadFirst) := by
  rw [tierGraphs_snd_snd]
  cases hq : ((md u).loadLast && !(md u).loadFirst)
  · simp only [List.contains, List.elem_eq_mem, decide_eq_false_iff_not]
    intro hc
    have := (mem_graphNodes_induced md active (tier_three_ids md active) _).mp hc
    have := (mem_map_filter_pid hnd hu _).mp this.2
    rw [hq] at this
    cases this
  · simp only [List.contains, List.elem_eq_mem, decide_eq_true_eq]
    apply (mem_graphNodes_induced md active (tier_three_ids md active) _).mpr
    exact ⟨mem_activeIdsOf hu, (mem_map_filter_pid hnd hu _).mpr hq⟩

theorem tier_two_contains_iff {md : Meta} {active : List String}
    (hnd : (activeIdsOf md active).Nodup) {u : String} (hu : u ∈ active) :
    ((graphNodes (tierGraphs md active).2.1).contains ((md u).packageid)) =
      (!(md u).loadFirst && !(md u).loadLast) := by
  rw [tierGraphs_snd_fst]
  have h1 : ((tier_one_ids md active).contains ((md u).packageid)) = (md u).loadFirst := by
    cases hlf : (md u).loadFirst
    · simp only [List.contains, List.elem_eq_mem, decide_eq_false_iff_not]
      intro hc
      have := (mem_map_filter_pid hnd hu _).mp hc
      rw [hlf] at this
      cases this
    · simp only [List.contains, List.elem_eq_mem, decide_eq_true_eq]
      exact (mem_map_filter_pid hnd hu _).mpr hlf
  have h3 : ((tier_three_ids md active).contains ((md u).packageid)) =
      ((md u).loadLast && !(md u).loadFirst) := by
    cases hq : ((md u).loadLast && !(md u).loadFirst)
    · simp only [List.contains, List.elem_eq_mem, decide_eq_false_iff_not]
      intro hc
      have := (mem_map_filter_pid hnd hu _).mp hc
      rw [hq] at this
      cases this
    · simp only [List.contains, List.elem_eq_mem, decide_eq_true_eq]
      exact (mem_map_filter_pid hnd hu _).mpr hq
  simp only [List.contains, List.elem_eq_mem] at h1 h3
  cases hm : (!(md u).loadFirst && !(md u).loadLast)
  · simp only [List.contains, List.elem_eq_mem, decide_eq_false_iff_not]
    intro hc
    have := (mem_graphNodes_induced md active _ _).mp hc
    have h2 := List.mem_filter.mp this.2
    rw [h1, h3] at h2
    have h2b := h2.2
    revert h2b hm
    cases (md u).loadFirst <;> cases (md u).loadLast <;> simp
  · simp only [List.contains, List.elem_eq_mem, decide_eq_true_eq]
    apply (mem_graphNodes_induced md active _ _).mpr
    refine ⟨mem_activeIdsOf hu, List.mem_filter.mpr ⟨mem_activeIdsOf hu, ?_⟩⟩
    rw [h1, h3]
    revert hm
    cases (md u).loadFirst <;> cases (md u).loadLast <;> simp

/-- The three tier filters partition the active list: concatenating the
anchored-first mods, the unanchored mods, and the anchored-last mods is a
permutation of the active list. -/
theorem tier_filters_perm (md : Meta) (active : List String) :
    active.filter (fun u => (md u).loadFirst) ++
      active.filter (fun u => !(md u).loadFirst && !(md u).loadLast) ++
      active.filter (fun u => (md u).loadLast && !(md u).loadFirst) ~ active := by
  have base := List.filter_append_perm (fun u => (md u).loadFirst) active
  have hsplit := List.filter_append_perm (fun u => !(md u).loadFirst && !(md u).loadLast)
    (active.filter (fun u => !(md u).loadFirst))
  rw [List.filter_filter, List.filter_filter] at hsplit
  have e1 : active.filter (fun u => (!(md u).loadFirst && !(md u).loadLast) &&
      !(md u).loadFirst) = active.filter (fun u => !(md u).loadFirst && !(md u).loadLast) := by
    apply List.filter_congr
    intro u _
    cases (md u).loadFirst <;> cases (md u).loadLast <;> rfl
  have e2 : active.filter (fun u => (!(!(md u).loadFirst && !(md u).loadLast)) &&
      !(md u).loadFirst) = active.filter (fun u => (md u).loadLast && !(md u).loadFirst) := by
    apply List.filter_congr
    intro u _
    cases (md u).loadFirst <;> cases (md u).loadLast <;> rfl
  rw [e1, e2] at hsplit
  calc active.filter (fun u => (md u).loadFirst) ++
        active.filter (fun u => !(md u).loadFirst && !(md u).loadLast) ++
        active.filter (fun u => (md u).loadLast && !(md u).loadFirst)
      = active.filter (fun u => (md u).loadFirst) ++
        (active.filter (fun u => !(md u).loadFirst && !(md u).loadLast) ++
         active.filter (fun u => (md u).loadLast && !(md u).loadFirst)) := by
        rw [List.append_assoc]
    _ ~ active.filter (fun u => (md u).loadFirst) ++
        active.filter (fun u => !(md u).loadFirst) := hsplit.append_left _
    _ ~ active := base

theorem do_alphabetical_sort_perm (md : Meta) (g : Graph) (active : List String) :
    do_alphabetical_sort md g active ~
      active.filter (fun u => (graphNodes g).contains ((md u).packageid)) :=
  List.perm_insertionSort _ _

/-- Concatenating any permutations of the three tier blocks of the
active list is a permutation of the active list. -/
theorem tier_concat_perm {md : Meta} {active : List String}
    (hnd : (activeIdsOf md active).Nodup) {o1 o2 o3 : List String}
    (h1 : o1 ~ active.filter (fun u =>
      (graphNodes (tierGraphs md active).1).contains ((md u).packageid)))
    (h2 : o2 ~ active.filter (fun u =>
      (graphNodes (tierGraphs md active).2.1).contains ((md u).packageid)))
    (h3 : o3 ~ active.filter (fun u =>
      (graphNodes (tierGraphs md active).2.2).contains ((md u).packageid))) :
    o1 ++ o2 ++ o3 ~ active := by
  have e1 : active.filter (fun u =>
      (graphNodes (tierGraphs md active).1).contains ((md u).packageid)) =
      active.filter (fun u => (md u).loadFirst) :=
    List.filter_congr (fun u hu => tier_one_contains_iff hnd hu)
  have e2 : active.filter (fun u =>
      (graphNodes (tierGraphs md active).2.1).contains ((md u).packageid)) =
      active.filter (fun u => !(md u).loadFirst && !(md u).loadLast) :=
    List.filter_congr (fun u hu => tier_two_contains_iff hnd hu)
  have e3 : active.filter (fun u =>
      (graphNodes (tierGraphs md active).2.2).contains ((md u).packageid)) =
      active.filter (fun u => (md u).loadLast && !(md u).loadFirst) :=
    List.filter_congr (fun u hu => tier_three_contains_iff hnd hu)
  rw [e1] at h1
  rw [e2] at h2
  rw [e3] at h3
  exact ((h1.append h2).append h3).trans (tier_filters_perm md active)

/-- C1: for every active handle sequence (package ids unique within the
active set, as the spec assumes) and both sort algorithms, any sequence
the sort operation returns is a permutation of the active handles: same
handles, no duplicates, no omissions. -/
theorem computeSortOrder_perm (md : Meta) (alg : SortAlg) (active : List String)
    (hnd : (activeIdsOf md active).Nodup) (out : List String)
    (h : _do_sort md alg active = .ok out) : out ~ active := by
  have hact : active.Nodup := List.Nodup.of_map _ hnd
  cases alg with
  | Alphabetical =>
    simp only [_do_sort] at h
    cases h
    have hperm : do_alphabetical_sort md (tierGraphs md active).1 active ++
        do_alphabetical_sort md (tierGraphs md active).2.1 active ++
        do_alphabetical_sort md (tierGraphs md active).2.2 active ~ active :=
      tier_concat_perm hnd (do_alphabetical_sort_perm md _ active)
        (do_alphabetical_sort_perm md _ active) (do_alphabetical_sort_perm md _ active)
    rw [dedupKeys_eq_self (hperm.nodup_iff.mpr hact)]
    exact hperm
  | Topological =>
    simp only [_do_sort] at h
    rcases ht1 : do_topo_sort md (tierGraphs md active).1 active with r1 | o1
    · rw [ht1] at h; cases h
    · rw [ht1] at h
      rcases ht3 : do_topo_sort md (tierGraphs md active).2.2 active with r3 | o3
      · rw [ht3] at h; cases h
      · rw [ht3] at h
        rcases ht2 : do_topo_sort md (tierGraphs md active).2.1 active with r2 | o2
        · rw [ht2] at h; cases h
        · rw [ht2] at h
          cases h
          have hperm : o1 ++ o2 ++ o3 ~ active :=
            tier_concat_perm hnd (do_topo_sort_perm_filter hnd ht1)
              (do_topo_sort_perm_filter hnd ht2) (do_topo_sort_perm_filter hnd ht3)
          rw [dedupKeys_eq_self (hperm.nodup_iff.mpr hact)]
          exact hperm

/-- C1 witness: a concrete two-mod active list sorted topologically,
with the hypotheses discharged by evaluation. -/
theorem computeSortOrder_perm_witness :
    (activeIdsOf mdA ["u1", "u2"]).Nodup ∧
    _do_sort mdA .Topological ["u1", "u2"] = .ok ["u1", "u2"] ∧
    (["u1", "u2"] : List String) ~ ["u1", "u2"] :=
  ⟨by decide, by decide,
    computeSortOrder_perm mdA .Topological ["u1", "u2"] (by decide) ["u1", "u2"] (by decide)⟩

/-! ### Failure semantics of the topological pipeline -/

theorem do_topo_sort_error {md : Meta} {g : Graph} {active r : List String}
    (h : do_topo_sort md g active = .error r) :
    toposortLevels g = .error () ∧ r = find_circular_dependencies g := by
  unfold do_topo_sort at h
  rcases htl : toposortLevels g with e | ls
  · rw [htl] at h
    injection h with hr
    obtain rfl : e = () := rfl
    exact ⟨rfl, hr.symm⟩
  · rw [htl] at h
    cases h

/-- C2: when the topological pass over any tier raises
`CircularDependencyError`, the whole sort aborts with no reorder
applied — the displayed active order is unchanged — and the error that
surfaces carries the cycle reporter's output for the failing tier
graph. -/
theorem sort_aborts_on_cycle (md : Meta) (active : List String) (r : List String)
    (h : _do_sort md .Topological active = .error r) :
    displayedOrderAfterSort md .Topological active = active ∧
    ∃ g, (g = (tierGraphs md active).1 ∨ g = (tierGraphs md active).2.1 ∨
        g = (tierGraphs md active).2.2) ∧
      toposortLevels g = .error () ∧ r = find_circular_dependencies g := by
  refine ⟨by rw [displayedOrderAfterSort, h], ?_⟩
  simp only [_do_sort] at h
  rcases ht1 : do_topo_sort md (tierGraphs md active).1 active with r1 | o1
  · rw [ht1] at h
    injection h with hr
    subst hr
    exact ⟨(tierGraphs md active).1, Or.inl rfl, (do_topo_sort_error ht1).1,
      (do_topo_sort_error ht1).2⟩
  · rw [ht1] at h
    rcases ht3 : do_topo_sort md (tierGraphs md active).2.2 active with r3 | o3
    · rw [ht3] at h
      injection h with hr
      subst hr
      exact ⟨(tierGraphs md active).2.2, Or.inr (Or.inr rfl), (do_topo_sort_error ht3).1,
        (do_topo_sort_error ht3).2⟩
    · rw [ht3] at h
      rcases ht2 : do_topo_sort md (tierGraphs md active).2.1 active with r2 | o2
      · rw [ht2] at h
        injection h with hr
        subst hr
        exact ⟨(tierGraphs md active).2.1, Or.inr (Or.inl rfl), (do_topo_sort_error ht2).1,
          (do_topo_sort_error ht2).2⟩
      · rw [ht2] at h
        cases h

/-- C2 witness: a two-mod dependency cycle makes the sort return the
reporter output as the error, leaving the displayed order untouched. -/
theorem sort_aborts_on_cycle_witness :
    _do_sort mdB .Topological ["u1", "u2"] = .error ["A -> B"] ∧
    displayedOrderAfterSort mdB .Topological ["u1", "u2"] = ["u1", "u2"] :=
  ⟨by decide, (sort_aborts_on_cycle mdB ["u1", "u2"] ["A -> B"] (by decide)).1⟩

/-- C5 (amended): within every extracted topological level, the level's
members appear ordered by display name ascending under Python's
code-point (case-sensitive) string comparison — the source sorts on the
raw `name` field — and the within-level order is deterministic.  "Zeta"
and "Alpha" still sort as Alpha then Zeta. -/
theorem topo_level_sorted (md : Meta) (g : Graph) (active : List String)
    (levels : List (List String)) (_h : toposortLevels g = .ok levels) :
    ∀ level ∈ levels, (levelBlock md active level).Pairwise (nameLe md) := by
  intro level _
  exact List.sorted_insertionSort (nameLe md) _

/-- C5 witness: a two-mod level, with the block sorted by raw name. -/
theorem topo_level_sorted_witness :
    toposortLevels [("p1", []), ("p2", [])] = .ok [["p1", "p2"]] ∧
    (levelBlock mdA ["u1", "u2"] ["p1", "p2"]).Pairwise (nameLe mdA) :=
  ⟨by decide,
    topo_level_sorted mdA [("p1", []), ("p2", [])] ["u1", "u2"] [["p1", "p2"]]
      (by decide) ["p1", "p2"] (by decide)⟩

/-- C5 counterexample: the claim's case-insensitive order fails on the
code.  With names "Zeta" and "alpha" in one level, the output lists
"Zeta" first although "alpha" is strictly smaller case-insensitively,
because Python compares the raw names and `Z` precedes `a` in code
points. -/
theorem topo_level_case_insensitive_counterexample :
    do_topo_sort mdA [("p1", []), ("p2", [])] ["u1", "u2"] = .ok ["u1", "u2"] ∧
    (mdA "u1").name = "Zeta" ∧ (mdA "u2").name = "alpha" ∧
    ciLt (mdA "u2").name (mdA "u1").name = true := by decide

/-- C6 (amended): the two-node cyclic graph raises
`CircularDependencyError`, and the cycle reporter produces the
arrow-joined chain "A -> B" (or its rotation "B -> A"): each simple
cycle is printed as its nodes once, without repeating the starting
node. -/
theorem cycle_detection_two_node :
    toposortLevels [("A", ["B"]), ("B", ["A"])] = .error () ∧
    find_circular_dependencies [("A", ["B"]), ("B", ["A"])] = ["A -> B"] := by decide

/-- C6 counterexample: the reporter chain for the two-node cycle is
"A -> B", which is strictly shorter than "A -> B -> A" and its rotation
"B -> A -> B", so no produced chain can contain the closed form the
claim states. -/
theorem cycle_chain_counterexample :
    find_circular_dependencies [("A", ["B"]), ("B", ["A"])] = ["A -> B"] ∧
    ("A -> B").length < ("A -> B -> A").length ∧
    ("A -> B").length < ("B -> A -> B").length := by decide

/-- C10: the topological sort output only ever contains handles of the
supplied active set; graph nodes that match no active package id are
silently omitted rather than raising. -/
theorem do_topo_sort_subset (md : Meta) (g : Graph) (active out : List String)
    (h : do_topo_sort md g active = .ok out) : ∀ u ∈ out, u ∈ active := by
  intro u hu
  unfold do_topo_sort at h
  rcases htl : toposortLevels g with e | levels
  · rw [htl] at h; cases h
  · rw [htl] at h
    cases h
    rcases List.mem_flatten.mp hu with ⟨b, hb, hub⟩
    rcases List.mem_map.mp hb with ⟨level, _, rfl⟩
    rw [levelBlock] at hub
    have hub2 := (List.perm_insertionSort (nameLe md) _).mem_iff.mp hub
    rcases List.mem_filterMap.mp hub2 with ⟨p, _, hlook⟩
    exact (pid2uuid_mem.mp (dictLookup_mem hlook)).1

/-- C10 witness: a graph with the extra node "x" matching no active
mod still sorts, and the output stays within the active set. -/
theorem do_topo_sort_subset_witness :
    do_topo_sort mdA [("x", []), ("p1", [])] ["u1"] = .ok ["u1"] ∧
    ("u1" : String) ∈ (["u1"] : List String) :=
  ⟨by decide,
    do_topo_sort_subset mdA [("x", []), ("p1", [])] ["u1"] ["u1"] (by decide) "u1"
      (by decide)⟩

/-! ### Toggling the warning-ignore state -/

/-- C9 counterexample: toggling the same package id twice does not
restore the exact ignore list when the id is not the last element:
from ["a", "b"], toggling "a" twice yields ["b", "a"]. -/
theorem toggle_warning_involution_counterexample :
    toggle_warning (toggle_warning ["a", "b"] "a") "a" ≠ ["a", "b"] := by decide

/-- C9 (amended): provided the package id occurs at most once in the
ignore list — the invariant `toggle_warning` itself maintains —
toggling it twice restores the ignore list up to reordering: the result
is a permutation (same entries) of the original list; the position of
the toggled id may move to the end. -/
theorem toggle_warning_toggle_warning_perm (L : List String) (p : String)
    (h : L.count p ≤ 1) : toggle_warning (toggle_warning L p) p ~ L := by
  by_cases hp : p ∈ L
  · have hc1 : L.contains p = true := by simpa [List.contains] using hp
    have hinner : toggle_warning L p = L.erase p := by rw [toggle_warning, if_pos hc1]
    have hcount : (L.erase p).count p = 0 := by
      rw [List.count_erase_self]
      have : 1 ≤ L.count p := List.one_le_count_iff.mpr hp
      omega
    have hnotmem : ¬ p ∈ L.erase p := by
      rw [← List.count_pos_iff]
      omega
    rw [hinner, toggle_warning, if_neg (by simpa [List.contains] using hnotmem)]
    exact (List.perm_append_singleton p (L.erase p)).trans (List.perm_cons_erase hp).symm
  · have hinner : toggle_warning L p = L ++ [p] := by
      rw [toggle_warning, if_neg (by simpa [List.contains] using hp)]
    rw [hinner, toggle_warning]
    have hc : (L ++ [p]).contains p = true := by simp [List.contains]
    rw [if_pos hc]
    rw [List.erase_append_right _ hp]
    simp

/-- C9 witness: the amended statement at a concrete list where the
toggled id sits in front, with the count hypothesis evaluated. -/
theorem toggle_warning_toggle_warning_perm_witness :
    (["a", "b"] : List String).count "a" ≤ 1 ∧
    toggle_warning (toggle_warning ["a", "b"] "a") "a" ~ ["a", "b"] :=
  ⟨by decide, toggle_warning_toggle_warning_perm ["a", "b"] "a" (by decide)⟩

/-! ### The diagnostics recalculation loop -/

theorem recalcAux_fst (md : Meta) (repl : List (String × List String))
    (gameVersion listType : String) (uuids ignore : List String) (l : List String) :
    (recalcAux md repl gameVersion listType uuids ignore l).1 =
      l.map (fun u => (u, modErrorsFor md repl gameVersion listType uuids ignore u)) := by
  induction l with
  | nil => rfl
  | cons a rest ih =>
    rw [recalcAux]
    simp [ih]

theorem recalcAux_counts (md : Meta) (repl : List (String × List String))
    (gameVersion listType : String) (uuids ignore : List String) (l : List String) :
    (recalcAux md repl gameVersion listType uuids ignore l).2.1 =
      (l.filter (fun u => countsAsError listType
        (modErrorsFor md repl gameVersion listType uuids ignore u))).length ∧
    (recalcAux md repl gameVersion listType uuids ignore l).2.2 =
      (l.filter (fun u => countsAsWarning md listType ignore u
        (modErrorsFor md repl gameVersion listType uuids ignore u))).length := by
  induction l with
  | nil => exact ⟨rfl, rfl⟩
  | cons a rest ih =>
    rw [recalcAux]
    have ih1 := ih.1
    have ih2 := ih.2
    constructor
    · simp only [List.filter_cons]
      cases hP : countsAsError listType
          (modErrorsFor md repl gameVersion listType uuids ignore a)
      · simpa [hP] using ih1
      · simp [hP]
        omega
    · simp only [List.filter_cons]
      cases hP : countsAsWarning md listType ignore a
          (modErrorsFor md repl gameVersion listType uuids ignore a)
      · simpa [hP] using ih2
      · simp [hP]
        omega

theorem lookup_map_pair (f : String → ModErrors) {l : List String} {u : String}
    (hu : u ∈ l) : (l.map (fun x => (x, f x))).lookup u = some (f u) := by
  induction l with
  | nil => cases hu
  | cons a rest ih =>
    rw [List.map_cons, List.lookup_cons]
    by_cases hau : u = a
    · subst hau
      simp
    · have hb : (u == a) = false := by simpa using hau
      rw [hb]
      rcases List.mem_cons.mp hu with rfl | hmem
      · simp at hau
      · exact ih hmem

theorem recalc_lookup (md : Meta) (repl : List (String × List String))
    (gameVersion listType : String) (uuids ignore : List String) {u : String}
    (hu : u ∈ uuids) :
    (recalculate_internal_errors_warnings md repl gameVersion listType uuids ignore).1.lookup
        u = some (modErrorsFor md repl gameVersion listType uuids ignore u) := by
  rw [recalculate_internal_errors_warnings, recalcAux_fst]
  exact lookup_map_pair _ hu

theorem modErrorsFor_non_active {md : Meta} {repl : List (String × List String)}
    {gameVersion listType : String} {uuids ignore : List String} {u : String}
    (h : listType ≠ "Active") :
    modErrorsFor md repl gameVersion listType uuids ignore u =
      { missing_dependencies := none, conflicting_incompatibilities := none,
        load_before_violations := none, load_after_violations := none,
        version_mismatch := is_version_mismatch md gameVersion u } := by
  simp [modErrorsFor, h]

/-- C8: when the recalculation runs on a list whose type is not
"Active", only the version-mismatch flag is computed per mod — the four
rule sets stay unset (`None`) — and the returned error and warning
counts are both zero. -/
theorem recalc_non_active (md : Meta) (repl : List (String × List String))
    (gameVersion listType : String) (uuids ignore : List String)
    (h : listType ≠ "Active") :
    (recalculate_internal_errors_warnings md repl gameVersion listType uuids ignore).2.1 = 0 ∧
    (recalculate_internal_errors_warnings md repl gameVersion listType uuids ignore).2.2 = 0 ∧
    ∀ u ∈ uuids,
      (recalculate_internal_errors_warnings md repl gameVersion listType uuids
          ignore).1.lookup u =
        some { missing_dependencies := none, conflicting_incompatibilities := none,
               load_before_violations := none, load_after_violations := none,
               version_mismatch := is_version_mismatch md gameVersion u } := by
  have hErr : ∀ u, countsAsError listType
      (modErrorsFor md repl gameVersion listType uuids ignore u) = false := by
    intro u
    simp [countsAsError, h]
  have hWarn : ∀ u, countsAsWarning md listType ignore u
      (modErrorsFor md repl gameVersion listType uuids ignore u) = false := by
    intro u
    simp [countsAsWarning, h]
  refine ⟨?_, ?_, ?_⟩
  · rw [recalculate_internal_errors_warnings,
      (recalcAux_counts md repl gameVersion listType uuids ignore uuids).1]
    simp [hErr]
  · rw [recalculate_internal_errors_warnings,
      (recalcAux_counts md repl gameVersion listType uuids ignore uuids).2]
    simp [hWarn]
  · intro u hu
    rw [recalc_lookup md repl gameVersion listType uuids ignore hu,
      modErrorsFor_non_active h]

/-- C8 witness: a concrete "Inactive" recalculation returns zero error
and warning counts. -/
theorem recalc_non_active_witness :
    (recalculate_internal_errors_warnings mdD [] "1.5" "Inactive" ["u1", "u2"] []).2.1 = 0 ∧
    (recalculate_internal_errors_warnings mdD [] "1.5" "Inactive" ["u1", "u2"] []).2.2 = 0 :=
  ⟨(recalc_non_active mdD [] "1.5" "Inactive" ["u1", "u2"] [] (by decide)).1,
    (recalc_non_active mdD [] "1.5" "Inactive" ["u1", "u2"] [] (by decide)).2.1⟩

/-- C7: over an "Active" list, the returned error count is exactly the
number of mods whose computed missing-dependency or incompatibility set
is non-empty, and the returned warning count is exactly the number of
non-ignored mods with a non-empty load-before or load-after violation
set or a version mismatch; ordering violations and version mismatch
never contribute to the error count. -/
theorem recalc_active_counts (md : Meta) (repl : List (String × List String))
    (gameVersion : String) (uuids ignore : List String) :
    (recalculate_internal_errors_warnings md repl gameVersion "Active" uuids ignore).2.1 =
      List.length (uuids.filter (fun u =>
        hasAny (modErrorsFor md repl gameVersion "Active" uuids ignore
          u).missing_dependencies ||
        hasAny (modErrorsFor md repl gameVersion "Active" uuids ignore
          u).conflicting_incompatibilities)) ∧
    (recalculate_internal_errors_warnings md repl gameVersion "Active" uuids ignore).2.2 =
      List.length (uuids.filter (fun u =>
        !(ignore.contains ((md u).packageid)) &&
        (hasAny (modErrorsFor md repl gameVersion "Active" uuids ignore
          u).load_before_violations ||
         hasAny (modErrorsFor md repl gameVersion "Active" uuids ignore
          u).load_after_violations ||
         (modErrorsFor md repl gameVersion "Active" uuids ignore u).version_mismatch))) := by
  constructor
  · have e : uuids.filter (fun u => countsAsError "Active"
        (modErrorsFor md repl gameVersion "Active" uuids ignore u)) =
        uuids.filter (fun u =>
          hasAny (modErrorsFor md repl gameVersion "Active" uuids ignore
            u).missing_dependencies ||
          hasAny (modErrorsFor md repl gameVersion "Active" uuids ignore
            u).conflicting_incompatibilities) :=
      List.filter_congr (fun u _ => by simp [countsAsError])
    rw [recalculate_internal_errors_warnings,
      (recalcAux_counts md repl gameVersion "Active" uuids ignore uuids).1, e]
  · have e : uuids.filter (fun u => countsAsWarning md "Active" ignore u
        (modErrorsFor md repl gameVersion "Active" uuids ignore u)) =
        uuids.filter (fun u =>
          !(ignore.contains ((md u).packageid)) &&
          (hasAny (modErrorsFor md repl gameVersion "Active" uuids ignore
            u).load_before_violations ||
           hasAny (modErrorsFor md repl gameVersion "Active" uuids ignore
            u).load_after_violations ||
           (modErrorsFor md repl gameVersion "Active" uuids ignore u).version_mismatch)) :=
      List.filter_congr (fun u _ => by simp [countsAsWarning])
    rw [recalculate_internal_errors_warnings,
      (recalcAux_counts md repl gameVersion "Active" uuids ignore uuids).2, e]

theorem modErrorsFor_active {md : Meta} {repl : List (String × List String)}
    {gameVersion : String} {uuids ignore : List String} {u : String}
    (hpid : (md u).packageid ≠ "") (hig : ¬ (md u).packageid ∈ ignore) :
    modErrorsFor md repl gameVersion "Active" uuids ignore u =
      { missing_dependencies := some ((md u).dependencies.filter (fun dep =>
          !((activeIdsOf md uuids).contains dep) &&
          !(_has_replacement repl (md u).packageid dep (activeIdsOf md uuids))))
        conflicting_incompatibilities := some ((md u).incompatibilities.filter
          (fun inc => (activeIdsOf md uuids).contains inc))
        load_before_violations := some (((md u).loadTheseBefore.filter (fun e =>
          e.2 && (match dictLookup (pid2uuid md uuids) e.1 with
            | some tu => decide (uuids.indexOf u ≤ uuids.indexOf tu)
            | none => false))).map Prod.fst)
        load_after_violations := some (((md u).loadTheseAfter.filter (fun e =>
          e.2 && (match dictLookup (pid2uuid md uuids) e.1 with
            | some tu => decide (uuids.indexOf u ≥ uuids.indexOf tu)
            | none => false))).map Prod.fst)
        version_mismatch := is_version_mismatch md gameVersion u } := by
  simp only [modErrorsFor]
  rw [if_pos ⟨by trivial, hpid, hig⟩]

/-- C3 (amended): a strict loadTheseBefore target with an active
package id is reported exactly when index(M) is at or before
index(target) — `loadTheseBefore` names mods that must load before M,
so M positioned at or before the target violates the rule; non-strict
entries never produce a violation. -/
theorem load_before_violation_iff (md : Meta) (repl : List (String × List String))
    (gameVersion : String) (uuids ignore : List String) (u t : String)
    (_hu : u ∈ uuids) (hpid : (md u).packageid ≠ "")
    (hig : ¬ (md u).packageid ∈ ignore)
    (hnd : (activeIdsOf md uuids).Nodup) :
    ∃ l, (modErrorsFor md repl gameVersion "Active" uuids ignore u).load_before_violations =
        some l ∧
      (t ∈ l ↔ ((t, true) ∈ (md u).loadTheseBefore ∧
        ∃ w ∈ uuids, (md w).packageid = t ∧ uuids.indexOf u ≤ uuids.indexOf w)) := by
  refine ⟨_, by rw [modErrorsFor_active hpid hig], ?_⟩
  constructor
  · intro ht
    rcases List.mem_map.mp ht with ⟨e, he, het⟩
    rcases List.mem_filter.mp he with ⟨hmem, hf⟩
    rcases e with ⟨t0, b⟩
    cases het
    have hb : b = true := (Bool.and_eq_true_iff.mp hf).1
    subst hb
    refine ⟨hmem, ?_⟩
    have hf2 := (Bool.and_eq_true_iff.mp hf).2
    rcases hlk : dictLookup (pid2uuid md uuids) t0 with _ | tu
    · rw [hlk] at hf2
      cases hf2
    · rw [hlk] at hf2
      have hm := pid2uuid_mem.mp (dictLookup_mem hlk)
      exact ⟨tu, hm.1, hm.2, by simpa using hf2⟩
  · rintro ⟨hmem, w, hw, hpw, hidx⟩
    apply List.mem_map.mpr
    refine ⟨(t, true), List.mem_filter.mpr ⟨hmem, ?_⟩, rfl⟩
    have hlk : dictLookup (pid2uuid md uuids) t = some w := by
      rw [← hpw]
      exact dictLookup_pid2uuid_self hnd hw
    simp [hlk, hidx]

/-- C3 witness: M1 listed before M2 while declaring strict
loadTheseBefore M2, with every hypothesis evaluated. -/
theorem load_before_violation_iff_witness :
    ("u1" : String) ∈ (["u1", "u2"] : List String) ∧
    (mdD "u1").packageid ≠ "" ∧
    ¬ (mdD "u1").packageid ∈ ([] : List String) ∧
    (activeIdsOf mdD ["u1", "u2"]).Nodup ∧
    (∃ l, (modErrorsFor mdD [] "1.5" "Active" ["u1", "u2"] [] "u1").load_before_violations =
        some l ∧
      ("M2" ∈ l ↔ (("M2", true) ∈ (mdD "u1").loadTheseBefore ∧
        ∃ w ∈ (["u1", "u2"] : List String), (mdD w).packageid = "M2" ∧
          (["u1", "u2"] : List String).indexOf "u1" ≤
            (["u1", "u2"] : List String).indexOf w))) :=
  ⟨by decide, by decide, by decide, by decide,
    load_before_violation_iff mdD [] "1.5" ["u1", "u2"] [] "u1" "M2" (by decide)
      (by decide) (by decide) (by decide)⟩

/-- C3 counterexample: the claim as stated fails on the code.  In the
active list [M2, M1] the claim predicts M1.loadBeforeViolations =
set containing M2 because index(M1) > index(M2), but the code reports
nothing; in [M1, M2] the claim predicts no violation but the code
reports M2. -/
theorem load_before_claim_counterexample :
    (modErrorsFor mdD [] "1.5" "Active" ["u2", "u1"] [] "u1").load_before_violations =
      some [] ∧
    (modErrorsFor mdD [] "1.5" "Active" ["u1", "u2"] [] "u1").load_before_violations =
      some ["M2"] ∧
    ("M2", true) ∈ (mdD "u1").loadTheseBefore ∧
    (mdD "u2").packageid = "M2" ∧
    (["u2", "u1"] : List String).indexOf "u2" < (["u2", "u1"] : List String).indexOf "u1" := by
  decide

/-- C4: for an active, non-ignored mod the reported missing
dependencies are exactly the declared dependencies that are not in the
active package-id set and have no entry of the static replacement table
in the active package-id set. -/
theorem missing_dependencies_iff (md : Meta) (repl : List (String × List String))
    (gameVersion : String) (uuids ignore : List String) (u d : String)
    (_hu : u ∈ uuids) (hpid : (md u).packageid ≠ "")
    (hig : ¬ (md u).packageid ∈ ignore) :
    ∃ l, (modErrorsFor md repl gameVersion "Active" uuids ignore u).missing_dependencies =
        some l ∧
      (d ∈ l ↔ (d ∈ (md u).dependencies ∧ ¬ d ∈ activeIdsOf md uuids ∧
        ∀ r ∈ ((repl.lookup d).getD []), ¬ r ∈ activeIdsOf md uuids)) := by
  refine ⟨_, by rw [modErrorsFor_active hpid hig], ?_⟩
  constructor
  · intro hd
    rcases List.mem_filter.mp hd with ⟨hmem, hf⟩
    rcases Bool.and_eq_true_iff.mp hf with ⟨hf1, hf2⟩
    refine ⟨hmem, ?_, ?_⟩
    · simpa [List.contains] using hf1
    · intro r hr
      have : ¬ _has_replacement repl (md u).packageid d (activeIdsOf md uuids) = true := by
        simpa using hf2
      intro hrmem
      apply this
      simp only [_has_replacement, List.any_eq_true]
      exact ⟨r, hr, by simpa [List.contains] using hrmem⟩
  · rintro ⟨hmem, hnotact, hnorep⟩
    apply List.mem_filter.mpr
    refine ⟨hmem, ?_⟩
    apply Bool.and_eq_true_iff.mpr
    constructor
    · simpa [List.contains] using hnotact
    · have : ¬ _has_replacement repl (md u).packageid d (activeIdsOf md uuids) = true := by
        simp only [_has_replacement, List.any_eq_true]
        rintro ⟨r, hr, hrc⟩
        exact hnorep r hr (by simpa [List.contains] using hrc)
      simpa using this

/-- C4 witness: M1 depends on "core.missing", absent from the active
set with an empty replacement table. -/
theorem missing_dependencies_iff_witness :
    ("u1" : String) ∈ (["u1", "u2"] : List String) ∧
    (mdD "u1").packageid ≠ "" ∧
    ¬ (mdD "u1").packageid ∈ ([] : List String) ∧
    (∃ l, (modErrorsFor mdD [] "1.5" "Active" ["u1", "u2"] [] "u1").missing_dependencies =
        some l ∧
      ("core.missing" ∈ l ↔ ("core.missing" ∈ (mdD "u1").dependencies ∧
        ¬ "core.missing" ∈ activeIdsOf mdD ["u1", "u2"] ∧
        ∀ r ∈ ((([] : List (String × List String)).lookup "core.missing").getD []),
          ¬ r ∈ activeIdsOf mdD ["u1", "u2"]))) :=
  ⟨by decide, by decide, by decide,
    missing_dependencies_iff mdD [] "1.5" ["u1", "u2"] [] "u1" "core.missing" (by decide)
      (by decide) (by decide)⟩

end RimSort
